import Mathlib

/-!
Shallow embedding of the control logic of the VS1053 Mega Box music player
(`VS1053_megabox.ino`): menu navigation, playback orchestration, volume and
mute handling, playlist construction, track-name entry, and the recording
drain loop.  Each definition mirrors the corresponding C++ function; machine
bytes are modelled as `Nat` with explicit `% 256` where overflow could occur.
-/

namespace MegaBox

/-! ### Constants from the source (`#define`s) -/

def MENU_SIZE : Nat := 9
def LCD_ROWS : Nat := 2
def MAX_BUFF : Nat := 13

def KEY_ENTER : Nat := 0x23
def KEY_UP : Nat := 0x12
def KEY_DOWN : Nat := 0x13
def KEY_RIGHT : Nat := 0x14
def KEY_LEFT : Nat := 0x15
def KEY_BACK : Nat := 0x0B
def KEY_PLAY : Nat := 0x32
def KEY_RESTART : Nat := 0x36
def KEY_INC_SPD : Nat := 0x34
def KEY_DEC_SPD : Nat := 0x37
def KEY_MUTE : Nat := 0x0D
def KEY_CH_UP : Nat := 0x21
def KEY_CH_DOWN : Nat := 0x20
def KEY_INC_VOL : Nat := 0x10
def KEY_DEC_VOL : Nat := 0x11
def NO_VAL : Nat := 0xFF

/-! ### Menu navigator (`navMenu`)

`navMenu val counter` returns the new value of the global `counter` together
with the list of menu indices passed to `parseMenu` during this call (the
digit cases fall through into the `ENTER` case exactly once).  The `default`
branch of the `switch` resets `counter` to 0. -/

def navMenu (val counter : Nat) : Nat × List Nat :=
  if val ≤ 8 then
    -- cases 0..8 set counter, then fall through into the ENTER case
    ((val % MENU_SIZE), [val % MENU_SIZE])
  else if val = KEY_ENTER then
    (counter, [counter])
  else if val = KEY_UP ∨ val = KEY_CH_UP then
    (if counter = 0 then MENU_SIZE - 1 else counter - 1, [])
  else if val = KEY_LEFT then
    (if LCD_ROWS ≤ counter then counter - LCD_ROWS
     else MENU_SIZE - (LCD_ROWS - counter), [])
  else if val = KEY_RIGHT then
    ((counter + LCD_ROWS) % MENU_SIZE, [])
  else if val = KEY_DOWN ∨ val = KEY_CH_DOWN then
    (if counter + 1 = MENU_SIZE then 0 else counter + 1, [])
  else
    (0, [])

/-! ### Volume adjustment (`adjustVolume`)

The code reads the current level into `mp3_vol.byte[1]` (both channels are
kept equal), nudges that single byte, and writes it back to both channels
with `setVolume(b, b)`.  The returned pair is `(left, right)`.  The byte
arithmetic carries an explicit `% 256` to mirror `uint8_t`. -/

def volStep (increase : Bool) (v : Nat) : Nat :=
  if increase then
    if v ≤ 2 then 2 else (v - 2) % 256
  else
    if 254 ≤ v then 254 else (v + 2) % 256

def adjustVolume (increase : Bool) (v : Nat) : Nat × Nat :=
  (volStep increase v, volStep increase v)

/-! ### Mute / unmute (`play_commands`, `case MUTE`)

`vol` is the current effective level (`mp3_vol.byte[1]`); `old_vol` is the
static mute shadow.  Mirrors lines 583-595 of the sketch. -/

structure VolSt where
  vol : Nat
  old_vol : Nat
deriving DecidableEq

def muteStep (s : VolSt) : VolSt :=
  if s.vol < 254 then
    { vol := 254, old_vol := s.vol }
  else if 2 ≤ s.old_vol then
    { vol := s.old_vol, old_vol := 0 }
  else
    s

end MegaBox

namespace MegaBox

/-! ### Claims C7, C8, C3, C4 -/

/-- C7: for every `counter` in `[0, MENU_SIZE)`, navigate-left followed by
navigate-right restores the original `counter`, including at the wrap points
`counter = 0` and `counter = MENU_SIZE - 1`. -/
theorem navMenu_left_right_inverse (c : Nat) (hc : c < MENU_SIZE) :
    (navMenu KEY_RIGHT (navMenu KEY_LEFT c).1).1 = c := by
  simp only [navMenu, MENU_SIZE, LCD_ROWS, KEY_LEFT, KEY_RIGHT, KEY_ENTER,
    KEY_UP, KEY_CH_UP, KEY_DOWN, KEY_CH_DOWN] at *
  norm_num
  split_ifs <;> omega

/-- Witness for C7 at the wrap point `counter = 0`. -/
theorem navMenu_left_right_inverse_witness :
    0 < MENU_SIZE ∧ (navMenu KEY_RIGHT (navMenu KEY_LEFT 0).1).1 = 0 :=
  ⟨by decide, navMenu_left_right_inverse 0 (by decide)⟩

/-- C8: feeding digit `k < MENU_SIZE` to `navMenu` leaves `counter = k` and
dispatches the bound action (`parseMenu`) exactly once — the fall-through
from the digit case into the `ENTER` case does not fire the action twice. -/
theorem navMenu_digit_selects_once (k c : Nat) (hk : k < MENU_SIZE) :
    navMenu k c = (k, [k]) := by
  simp only [navMenu, MENU_SIZE] at *
  have h8 : k ≤ 8 := by omega
  simp [h8, Nat.mod_eq_of_lt hk]

/-- Witness for C8 at `k = 5` with an arbitrary prior counter value 2. -/
theorem navMenu_digit_selects_once_witness :
    5 < MENU_SIZE ∧ navMenu 5 2 = (5, [5]) :=
  ⟨by decide, navMenu_digit_selects_once 5 2 (by decide)⟩

/-- C3 counterexample: the claim says volume-up sets the level to
`max 2 (v - 2)` and volume-down to `min 254 (v + 2)` for every byte `v`, but
the code applies its boundary guard before stepping: at `v = 3` volume-up
yields 1 (claim says 2), and at `v = 253` volume-down yields 255 (claim
says 254). -/
theorem adjustVolume_claim_false :
    (adjustVolume true 3).1 ≠ max 2 (3 - 2) ∧
    (adjustVolume false 253).1 ≠ min 254 (253 + 2) := by
  decide

/-- C3 amended: volume-up sets the level to `max 2 (v - 2)` for every byte
`v ≠ 3` and to 1 at `v = 3`; volume-down sets the level to `min 254 (v + 2)`
for every byte `v ≠ 253` and to 255 at `v = 253` (the floor/ceiling guard
runs before the step, so the values one past the guard overshoot); after
either step both channels are set to the same value. -/
theorem adjustVolume_law (v : Nat) (hv : v < 256) :
    (v ≠ 3 → (adjustVolume true v).1 = max 2 (v - 2)) ∧
    (v = 3 → (adjustVolume true v).1 = 1) ∧
    (v ≠ 253 → (adjustVolume false v).1 = min 254 (v + 2)) ∧
    (v = 253 → (adjustVolume false v).1 = 255) ∧
    (∀ inc, (adjustVolume inc v).2 = (adjustVolume inc v).1) := by
  refine ⟨fun h3 => ?_, fun h3 => ?_, fun h253 => ?_, fun h253 => ?_,
    fun inc => ?_⟩
  · simp only [adjustVolume, volStep, if_true]
    split_ifs <;> omega
  · subst h3
    decide
  · simp only [adjustVolume, volStep]
    norm_num
    split_ifs <;> omega
  · subst h253
    decide
  · simp [adjustVolume]

/-- Witness for the amended C3 at `v = 10`. -/
theorem adjustVolume_law_witness :
    10 < 256 ∧
    (((10 : Nat) ≠ 3 → (adjustVolume true 10).1 = max 2 (10 - 2)) ∧
     ((10 : Nat) = 3 → (adjustVolume true 10).1 = 1) ∧
     ((10 : Nat) ≠ 253 → (adjustVolume false 10).1 = min 254 (10 + 2)) ∧
     ((10 : Nat) = 253 → (adjustVolume false 10).1 = 255) ∧
     (∀ inc, (adjustVolume inc 10).2 = (adjustVolume inc 10).1)) :=
  ⟨by decide, adjustVolume_law 10 (by decide)⟩

/-- C4 counterexample: pre-mute level 1 is not the silence sentinel (254),
yet muting twice from `⟨vol := 1, old_vol := 0⟩` does not restore level 1
and clear the shadow — the restore guard `old_vol ≥ 2` rejects the shadow,
so the player stays at 254. -/
theorem mute_roundtrip_claim_false :
    muteStep (muteStep { vol := 1, old_vol := 0 }) ≠
      { vol := 1, old_vol := 0 } := by
  decide

/-- C4 amended: muting then unmuting restores the exact pre-mute level and
clears the mute shadow to 0 for every pre-mute effective level `v` with
`2 ≤ v ≤ 253` — i.e. strictly below the silence threshold 254 *and* at
least 2, the restore guard's notion of a genuine prior level.  (Levels 0
and 1 mute but never unmute; levels ≥ 254 are treated as already muted.) -/
theorem mute_roundtrip (v ov : Nat) (h2 : 2 ≤ v) (h254 : v < 254) :
    muteStep (muteStep { vol := v, old_vol := ov }) =
      { vol := v, old_vol := 0 } := by
  simp only [muteStep]
  rw [if_pos h254]
  simp only [if_neg (by omega : ¬ (254 : Nat) < 254), if_pos h2]

/-- Witness for the amended C4 at pre-mute level 80 with a stale shadow 7. -/
theorem mute_roundtrip_witness :
    2 ≤ 80 ∧ 80 < 254 ∧
    muteStep (muteStep { vol := 80, old_vol := 7 }) =
      { vol := 80, old_vol := 0 } :=
  ⟨by decide, by decide, mute_roundtrip 80 7 (by decide) (by decide)⟩

end MegaBox

namespace MegaBox

/-! ### Playlist builder (`createPlaylist`)

A directory is modelled as the list of entries `file.openNext` yields, in
scan order.  `nameOk` is whether `file.getFilename` succeeded, `name` the
filename, and `curPos` the volume's `curPosition()` after the entry was
opened.  The stored token is `curPosition()/32 - 1` computed in `uint16_t`
arithmetic.  `isFnMusic` lives in the SFEMP3Shield library (not in this
repository), so it is kept as an abstract predicate parameter. -/

structure DirEntry where
  nameOk : Bool
  name : String
  curPos : Nat

def dirToken (e : DirEntry) : Nat :=
  (e.curPos / 32 + 65535) % 65536

def createPlaylistAux (isFnMusic : String → Bool) (maxIndex : Nat) :
    Nat → List DirEntry → List Nat
  | _, [] => []
  | playlen, e :: es =>
    if playlen < maxIndex then
      if e.nameOk && isFnMusic e.name then
        dirToken e :: createPlaylistAux isFnMusic maxIndex (playlen + 1) es
      else
        createPlaylistAux isFnMusic maxIndex playlen es
    else []

def createPlaylist (isFnMusic : String → Bool) (maxIndex : Nat)
    (dir : List DirEntry) : List Nat :=
  createPlaylistAux isFnMusic maxIndex 0 dir

theorem createPlaylistAux_length_le (isFnMusic : String → Bool)
    (maxIndex : Nat) (dir : List DirEntry) :
    ∀ playlen, (createPlaylistAux isFnMusic maxIndex playlen dir).length ≤
      maxIndex - playlen := by
  induction dir with
  | nil => intro playlen; simp [createPlaylistAux]
  | cons e es ih =>
    intro playlen
    simp only [createPlaylistAux]
    split_ifs with hcap hmus
    · have := ih (playlen + 1)
      simp only [List.length_cons]
      omega
    · have := ih playlen
      omega
    · simp

theorem createPlaylistAux_mem (isFnMusic : String → Bool)
    (maxIndex : Nat) (dir : List DirEntry) :
    ∀ playlen t, t ∈ createPlaylistAux isFnMusic maxIndex playlen dir →
      ∃ e ∈ dir, e.nameOk ∧ isFnMusic e.name ∧ t = dirToken e := by
  induction dir with
  | nil => intro playlen t ht; simp [createPlaylistAux] at ht
  | cons e es ih =>
    intro playlen t ht
    simp only [createPlaylistAux] at ht
    split_ifs at ht with hcap hmus
    · rw [List.mem_cons] at ht
      rcases ht with h | h
      · rw [Bool.and_eq_true] at hmus
        exact ⟨e, List.mem_cons_self _ _, hmus.1, hmus.2, h⟩
      · obtain ⟨e', he', hh⟩ := ih _ _ h
        exact ⟨e', List.mem_cons_of_mem _ he', hh⟩
    · obtain ⟨e', he', hh⟩ := ih _ _ ht
      exact ⟨e', List.mem_cons_of_mem _ he', hh⟩
    · simp at ht

/-- C6: after any `createPlaylist` run, the playlist length never exceeds
`MAX_INDEX` (for any capacity value, covering both the Uno value 75 and the
Mega value 1250), and every stored entry is the directory token of an entry
whose filename passed the `isFnMusic` extension allow-list. -/
theorem createPlaylist_bounded_and_music (isFnMusic : String → Bool)
    (maxIndex : Nat) (dir : List DirEntry) :
    (createPlaylist isFnMusic maxIndex dir).length ≤ maxIndex ∧
    ∀ t ∈ createPlaylist isFnMusic maxIndex dir,
      ∃ e ∈ dir, e.nameOk ∧ isFnMusic e.name ∧ t = dirToken e := by
  constructor
  · have := createPlaylistAux_length_le isFnMusic maxIndex dir 0
    simpa [createPlaylist] using this
  · intro t ht
    exact createPlaylistAux_mem isFnMusic maxIndex dir 0 t ht

/-- Witness for C6: three-entry directory, capacity 2, middle entry not
matching the allow-list; the theorem is applied at this concrete input and
its membership conclusion is instantiated on the first stored token. -/
theorem createPlaylist_bounded_and_music_witness :
    (createPlaylist (fun s => s == "a.mp3" || s == "c.ogg") 2
      [⟨true, "a.mp3", 32⟩, ⟨true, "b.txt", 64⟩, ⟨true, "c.ogg", 96⟩]).length ≤ 2 ∧
    ∃ e ∈ [DirEntry.mk true "a.mp3" 32, ⟨true, "b.txt", 64⟩, ⟨true, "c.ogg", 96⟩],
      e.nameOk ∧ (e.name == "a.mp3" || e.name == "c.ogg") = true ∧
        0 = dirToken e := by
  have h := createPlaylist_bounded_and_music
    (fun s => s == "a.mp3" || s == "c.ogg") 2
    [⟨true, "a.mp3", 32⟩, ⟨true, "b.txt", 64⟩, ⟨true, "c.ogg", 96⟩]
  exact ⟨h.1, h.2 0 (by decide)⟩

end MegaBox

namespace MegaBox

/-! ### Playback orchestrator (`play` and `play_commands`)

`playCommands playlen playnum cmds` runs the live-playback sub-loop of
`play_commands` on a finite stream of decoded command bytes.  The sub-loop
runs while `MP3player.isPlaying()`; the commands that call `stopTrack`
(`RESTART`, `UP`/`CH_UP`, `DOWN`/`CH_DOWN`, `BACK`) end it, every other
command leaves `playnum` and the return flag untouched.  An exhausted
stream models the track finishing naturally.  The result is the pair
`(skipped, playnum)` as returned to `play`.  `playnum` is the C `int`,
modelled as `Int`. -/

def playCommands (playlen : Int) : Int → List Nat → Bool × Int
  | playnum, [] => (false, playnum)
  | playnum, c :: cs =>
    if c = KEY_RESTART then (true, playnum)
    else if c = KEY_CH_UP ∨ c = KEY_UP then
      (true, if playnum = 0 then playlen - 1 else playnum - 1)
    else if c = KEY_CH_DOWN ∨ c = KEY_DOWN then
      (true, playnum + 1)
    else if c = KEY_BACK then (false, playlen)
    else playCommands playlen playnum cs

/-- Per-track behaviour of the collaborators during one `play` iteration:
whether `file.open` at that playlist slot succeeds, whether
`file.getFilename` succeeds, the `playMP3` return code (0 = started), and
the command bytes observed while the track plays. -/
structure Track where
  openOk : Bool
  nameOk : Bool
  playRes : Nat
  cmds : List Nat

/-- One run of the `while (playnum < playlen)` loop of `play`, returning
the sequence of playlist positions at which `file.open` is attempted.
`fuel` bounds the number of iterations (the real loop can spin forever,
e.g. on an endless `RESTART` stream). -/
def playLoop (tracks : Int → Track) (playlen : Int) :
    Nat → Int → Bool → List Int
  | 0, _, _ => []
  | fuel + 1, playnum, skipped =>
    if playnum < playlen then
      let pn := if skipped then playnum else playnum + 1
      let t := tracks pn
      pn ::
        (if t.openOk then
          if t.nameOk then
            if t.playRes ≠ 0 then
              playLoop tracks playlen fuel (pn + 1) false
            else
              let r := playCommands playlen pn t.cmds
              playLoop tracks playlen fuel r.2 r.1
          else playLoop tracks playlen fuel pn false
        else playLoop tracks playlen fuel pn false)
    else []

/-- Collaborator behaviour for the C2 scenario: a 3-track playlist where
`playMP3` fails on track 0 and every other open plays to natural
completion with no user input. -/
def failFirstTracks : Int → Track :=
  fun i => if i = 0 then ⟨true, true, 1, []⟩ else ⟨true, true, 0, []⟩

/-- C2: evaluation of `play` at the failing input.  With 3 tracks and
`playMP3` failing on track 0, the positions at which `file.open` is
attempted are 0, 2, 3: the failure branch increments `playnum` but leaves
`skipped == false`, so the next iteration's natural-advance increments it
again — track 1 is never opened, contradicting the claimed advance-by-
exactly-one (the trailing open at 3 is the loop's phantom final iteration
after track 2 completes naturally). -/
theorem play_fail_skips_following_track :
    playLoop failFirstTracks 3 10 0 true = [0, 2, 3] := by
  decide

/-- C10: a navigate-down/channel-down command during the last playlist
track sets `playnum` to `playlen` — the stop sentinel — with the skipped
flag set, after which the outer loop of `play` attempts no further open
for any collaborator behaviour and any iteration budget (forward skip on
the final track ends playback rather than wrapping); a navigate-up/
channel-up at `playnum = 0` wraps to `playlen - 1`. -/
theorem play_skip_boundaries (playlen : Int) (hl : 1 ≤ playlen) :
    playCommands playlen (playlen - 1) [KEY_DOWN] = (true, playlen) ∧
    (∀ tracks fuel, playLoop tracks playlen fuel playlen true = []) ∧
    playCommands playlen 0 [KEY_UP] = (true, playlen - 1) := by
  refine ⟨?_, ?_, ?_⟩
  · simp only [playCommands, KEY_DOWN, KEY_RESTART, KEY_CH_UP, KEY_UP,
      KEY_CH_DOWN, KEY_BACK]
    norm_num
  · intro tracks fuel
    cases fuel with
    | zero => simp [playLoop]
    | succ n => simp [playLoop]
  · simp only [playCommands, KEY_UP, KEY_RESTART, KEY_CH_UP, KEY_CH_DOWN,
      KEY_DOWN, KEY_BACK]
    norm_num

/-- Witness for C10 on a 4-track playlist. -/
theorem play_skip_boundaries_witness :
    (1 : Int) ≤ 4 ∧
    (playCommands 4 (4 - 1) [KEY_DOWN] = (true, 4) ∧
     (∀ tracks fuel, playLoop tracks 4 fuel 4 true = []) ∧
     playCommands 4 0 [KEY_UP] = (true, 4 - 1)) :=
  ⟨by decide, play_skip_boundaries 4 (by decide)⟩

end MegaBox

namespace MegaBox

/-! ### Track-number entry (`playTrack`)

`collectTrack cnt tracknum script` mirrors the `while (cnt < 3)` input
loop of `playTrack` on a finite stream of decoded bytes: digit keys append
a decimal digit (unless `tracknum > 99`, which forces the exit count),
`DOWN`/`RIGHT` increment with wrap to 0 above 999, `ENTER` exits, anything
else is ignored.  `none` models a stream that ends before the loop does
(the real loop would keep polling).  After the loop the sketch forces
`tracknum = 1` when it is 0 and renders `snprintf("track%03d.%s", ...)`
into a 13-byte buffer, i.e. the rendered name is truncated to 12
characters. -/

def collectTrack : Nat → Nat → List Nat → Option Nat
  | cnt, t, [] => if 3 ≤ cnt then some t else none
  | cnt, t, d :: ds =>
    if 3 ≤ cnt then some t
    else if d ≤ 9 then
      if 99 < t then collectTrack 3 t ds
      else collectTrack (cnt + 1) (t * 10 + d) ds
    else if d = KEY_DOWN ∨ d = KEY_RIGHT then
      collectTrack cnt (if 999 < t then 0 else t + 1) ds
    else if d = KEY_ENTER then some t
    else collectTrack cnt t ds

/-- Rendering of `%03d` (zero-pad to width three, wider numbers printed in
full) for the values `≤ 9999`, which covers everything `collectTrack` can
produce. -/
def pad3 (n : Nat) : List Char :=
  if n < 10 then ['0', '0', Char.ofNat (48 + n)]
  else if n < 100 then ['0', Char.ofNat (48 + n / 10), Char.ofNat (48 + n % 10)]
  else if n < 1000 then
    [Char.ofNat (48 + n / 100), Char.ofNat (48 + n / 10 % 10),
     Char.ofNat (48 + n % 10)]
  else
    [Char.ofNat (48 + n / 1000), Char.ofNat (48 + n / 100 % 10),
     Char.ofNat (48 + n / 10 % 10), Char.ofNat (48 + n % 10)]

/-- The filename passed to `playMP3`: `snprintf(trackname, MAX_BUFF,
"track%03d.%s", tracknum, filetype)` writes at most `MAX_BUFF - 1 = 12`
characters. -/
def trackName (n : Nat) (ext : List Char) : List Char :=
  ("track".toList ++ pad3 n ++ ['.'] ++ ext).take 12

theorem collectTrack_le (script : List Nat) :
    ∀ cnt t r, t ≤ 1000 → collectTrack cnt t script = some r → r ≤ 1000 := by
  induction script with
  | nil =>
    intro cnt t r ht h
    simp only [collectTrack] at h
    split_ifs at h
    · exact (Option.some_inj.mp h) ▸ ht
  | cons d ds ih =>
    intro cnt t r ht h
    simp only [collectTrack] at h
    split_ifs at h <;>
      first
        | exact (Option.some_inj.mp h) ▸ ht
        | exact ih _ _ _ (by omega) h

theorem pad3_length_of_lt (n : Nat) (h : n < 1000) : (pad3 n).length = 3 := by
  simp only [pad3]
  split_ifs <;> simp

/-- C9 amended: for every input sequence accepted by the entry loop, the
effective track number is in `1..1000` — not `1..999` as claimed — and
whenever it is at most 999 the constructed filename is exactly
`trackNNN.ext` (zero-padded, untruncated) with `ext ∈ {mp3, ogg}`.  An
input sequence that increments past 999 produces track number 1000, whose
rendering overflows the 13-byte buffer and is truncated. -/
theorem playTrack_name_form (script : List Nat) (t : Nat) (ext : List Char)
    (hs : collectTrack 0 0 script = some t)
    (hext : ext = "mp3".toList ∨ ext = "ogg".toList) :
    1 ≤ (if t = 0 then 1 else t) ∧ (if t = 0 then 1 else t) ≤ 1000 ∧
    ((if t = 0 then 1 else t) ≤ 999 →
      trackName (if t = 0 then 1 else t) ext =
        "track".toList ++ pad3 (if t = 0 then 1 else t) ++ ['.'] ++ ext) := by
  have ht : t ≤ 1000 := collectTrack_le script 0 0 t (by omega) hs
  refine ⟨by split_ifs <;> omega, by split_ifs <;> omega, fun h999 => ?_⟩
  have hext3 : ext.length = 3 := by rcases hext with rfl | rfl <;> decide
  have hpad : (pad3 (if t = 0 then 1 else t)).length = 3 :=
    pad3_length_of_lt _ (by omega)
  have hlen : ("track".toList ++ pad3 (if t = 0 then 1 else t) ++ ['.'] ++
      ext).length = 12 := by
    simp [hext3, hpad]
  rw [trackName, ← hlen, List.take_length]

theorem collectTrack_replicate_down (k : Nat) :
    ∀ t cnt rest, cnt < 3 → t + k ≤ 1000 →
      collectTrack cnt t (List.replicate k KEY_DOWN ++ rest) =
        collectTrack cnt (t + k) rest := by
  induction k with
  | zero => intro t cnt rest _ _; simp
  | succ k ih =>
    intro t cnt rest hcnt ht
    rw [List.replicate_succ, List.cons_append, collectTrack]
    rw [if_neg (by omega), if_neg (by decide), if_pos (by decide),
      if_neg (by omega : ¬ 999 < t)]
    rw [ih (t + 1) cnt rest hcnt (by omega)]
    congr 1
    omega

/-- C9 counterexample: pressing navigate-down 1000 times and then confirm
yields track number 1000, outside the claimed `1..999` range, and the
rendered name is truncated (`track1000.mp` for the mp3 extension), so the
filename passed to the codec is not of the form `trackNNN.ext`. -/
theorem playTrack_claim_false :
    collectTrack 0 0 (List.replicate 1000 KEY_DOWN ++ [KEY_ENTER]) =
      some 1000 ∧
    ¬ (1000 ≤ 999) ∧
    trackName 1000 "mp3".toList ≠
      "track".toList ++ pad3 1000 ++ ['.'] ++ "mp3".toList := by
  refine ⟨?_, by omega, by decide⟩
  rw [collectTrack_replicate_down 1000 0 0 [KEY_ENTER] (by omega) (by omega)]
  decide

end MegaBox

namespace MegaBox

/-- Witness for the amended C9: digits 1, 2 then confirm give track 12 and
the exact, untruncated name `track012.mp3`. -/
theorem playTrack_name_form_witness :
    collectTrack 0 0 [1, 2, KEY_ENTER] = some 12 ∧
    (1 ≤ (if (12 : Nat) = 0 then 1 else 12) ∧
     (if (12 : Nat) = 0 then 1 else 12) ≤ 1000 ∧
     ((if (12 : Nat) = 0 then 1 else 12) ≤ 999 →
       trackName (if (12 : Nat) = 0 then 1 else 12) "mp3".toList =
         "track".toList ++ pad3 (if (12 : Nat) = 0 then 1 else 12) ++
           ['.'] ++ "mp3".toList)) :=
  ⟨by decide,
   playTrack_name_form [1, 2, KEY_ENTER] 12 "mp3".toList (by decide)
     (Or.inl rfl)⟩

end MegaBox

namespace MegaBox

/-! ### Recording pipeline (`record`, lines 871-947)

The codec is modelled by the list `pending` of 16-bit words waiting in its
FIFO (`SCI_HDAT1` reads its length, `SCI_HDAT0` pops its head), the file by
the list `out` of bytes written, and the global `rec_state` by a `Nat`.
The final-status flag — bit 2 of the *second* `SCI_AICTRL3` read in the
final-block branch — is the parameter `fb` of the functions below; the
stop-confirmation bit (bit 1 of `SCI_AICTRL3`) and the input poll are
delivered per outer iteration by a `PollIn`.  `readWords n p` models `n`
successive `SCI_HDAT0` reads byte-split big-endian into the write buffer. -/

structure RecSt where
  rec_state : Nat
  pending : List Nat
  out : List Nat
deriving DecidableEq

structure PollIn where
  inp : Bool
  arrive : List Nat
  confirm : Bool
deriving DecidableEq

def readWords : Nat → List Nat → List Nat × List Nat
  | 0, p => ([], p)
  | n + 1, p =>
    let d := p.headD 0
    let r := readWords n p.tail
    (d / 256 % 256 :: d % 256 :: r.1, r.2)

/-- The inner `while (wordsWaiting >= ((rec_state < 2) ? 256 : 1))` loop.
`fuel` only bounds the iteration count (each iteration strictly decreases
`wordsWaiting`, so any `fuel ≥ wordsWaiting` is exact). -/
def drainBlocks (fb : Bool) : Nat → Nat → RecSt → RecSt
  | 0, _, st => st
  | fuel + 1, wordsWaiting, st =>
    if (if st.rec_state < 2 then 256 else 1) ≤ wordsWaiting then
      let wordsToRead := min wordsWaiting 256
      let ww2 := wordsWaiting - wordsToRead
      let wtr := if st.rec_state = 2 ∧ ww2 = 0 then wordsToRead - 1
                 else wordsToRead
      let rw := readWords (2 * (wtr / 2)) st.pending
      let st1 : RecSt := ⟨st.rec_state, rw.2, st.out ++ rw.1⟩
      let st2 : RecSt :=
        if wtr < 256 then
          ⟨3, st1.pending.tail,
           st1.out ++ st1.pending.headD 0 / 256 % 256 ::
             (if fb then [] else [st1.pending.headD 0 % 256])⟩
        else st1
      drainBlocks fb fuel ww2 st2
    else st

/-- One iteration of the outer `while (rec_state < 3)` drain loop: words
arriving in the FIFO, the input poll (with its `rec_state == 0` guard and
stop-request write), the `SCI_HDAT1` read, the stop-confirmation check with
its `SCI_HDAT1` re-read, then the inner block loop. -/
def recordStep (fb : Bool) (i : PollIn) (st : RecSt) : RecSt :=
  let p1 := st.pending ++ i.arrive
  let s1 : Nat := if i.inp ∧ st.rec_state = 0 then 1 else st.rec_state
  let s2 : Nat := if s1 = 1 ∧ i.confirm then 2 else s1
  drainBlocks fb p1.length p1.length ⟨s2, p1, st.out⟩

/-- The outer loop over a finite poll script, honouring its
`rec_state < 3` guard. -/
def runRec (fb : Bool) : List PollIn → RecSt → RecSt
  | [], st => st
  | i :: is, st =>
    if st.rec_state < 3 then runRec fb is (recordStep fb i st) else st

/-- Session prefix: any number of command-free polls (with arbitrary word
arrivals) while recording, then the poll that observes the stop command. -/
def recPreState (fb : Bool) (arr : List (List Nat)) : RecSt :=
  runRec fb ((arr.map fun a => PollIn.mk false a false) ++
    [PollIn.mk true [] false]) ⟨0, [], []⟩

/-- Full session: the prefix above followed by the poll on which the codec
confirms it has stopped capturing, delivering the last `tail` words. -/
def recSession (fb : Bool) (arr : List (List Nat)) (tail : List Nat) : RecSt :=
  recordStep fb (PollIn.mk false tail true) (recPreState fb arr)

end MegaBox

namespace MegaBox

theorem drainBlocks_ww_zero (fb : Bool) (fuel : Nat) (st : RecSt) :
    drainBlocks fb fuel 0 st = st := by
  cases fuel with
  | zero => rfl
  | succ n =>
    simp only [drainBlocks]
    rw [if_neg]
    split_ifs <;> omega

theorem drainBlocks_state (fb : Bool) (fuel : Nat) :
    ∀ ww st, (drainBlocks fb fuel ww st).rec_state = st.rec_state ∨
      (drainBlocks fb fuel ww st).rec_state = 3 := by
  induction fuel with
  | zero => intro ww st; exact Or.inl rfl
  | succ fuel ih =>
    intro ww st
    simp only [drainBlocks]
    split_ifs <;>
      first
        | exact Or.inl rfl
        | exact ih _ _
        | exact Or.inr ((ih _ _).elim id id)

theorem drainBlocks_lt2 (fb fb' : Bool) (fuel : Nat) :
    ∀ ww st, st.rec_state < 2 →
      drainBlocks fb fuel ww st = drainBlocks fb' fuel ww st ∧
      (drainBlocks fb fuel ww st).rec_state = st.rec_state := by
  induction fuel with
  | zero => intro ww st _; exact ⟨rfl, rfl⟩
  | succ fuel ih =>
    intro ww st h
    simp only [drainBlocks]
    split_ifs <;>
      first
        | exact ⟨rfl, rfl⟩
        | exact ih _ _ (by exact h)
        | (exfalso; omega)

theorem drainBlocks_small (fb : Bool) (fuel ww : Nat) (st : RecSt)
    (h2 : st.rec_state = 2) (h1 : 1 ≤ ww) (hsm : ww ≤ 256) :
    drainBlocks fb (fuel + 1) ww st =
      ⟨3, (readWords (2 * ((ww - 1) / 2)) st.pending).2.tail,
       (st.out ++ (readWords (2 * ((ww - 1) / 2)) st.pending).1) ++
         (readWords (2 * ((ww - 1) / 2)) st.pending).2.headD 0 / 256 % 256 ::
         (if fb then []
          else [(readWords (2 * ((ww - 1) / 2)) st.pending).2.headD 0 % 256])⟩ := by
  simp only [drainBlocks]
  rw [if_neg (by omega : ¬ st.rec_state < 2), if_pos h1,
    Nat.min_eq_left hsm,
    if_pos ((⟨h2, Nat.sub_self ww⟩ : st.rec_state = 2 ∧ ww - ww = 0)),
    if_pos (by omega : ww - 1 < 256), Nat.sub_self, drainBlocks_ww_zero]

theorem drainBlocks_bigStep (fb : Bool) (fuel ww : Nat) (st : RecSt)
    (h2 : st.rec_state = 2) (hbig : 256 < ww) :
    drainBlocks fb (fuel + 1) ww st =
      drainBlocks fb fuel (ww - 256)
        ⟨st.rec_state, (readWords 256 st.pending).2,
         st.out ++ (readWords 256 st.pending).1⟩ := by
  simp only [drainBlocks]
  rw [if_neg (by omega : ¬ st.rec_state < 2), if_pos (by omega : 1 ≤ ww),
    Nat.min_eq_right (by omega : 256 ≤ ww),
    if_neg (by omega : ¬ (st.rec_state = 2 ∧ ww - 256 = 0)),
    if_neg (by omega : ¬ (256 : Nat) < 256)]

theorem drainBlocks_final (fuel : Nat) :
    ∀ ww st, st.rec_state = 2 → 1 ≤ ww → ww ≤ fuel →
      (∀ fb, (drainBlocks fb fuel ww st).rec_state = 3) ∧
      ∃ b, (drainBlocks false fuel ww st).out =
        (drainBlocks true fuel ww st).out ++ [b] := by
  induction fuel with
  | zero => intro ww st _ h1 hf; omega
  | succ fuel ih =>
    intro ww st h2 h1 hf
    by_cases hsm : ww ≤ 256
    · constructor
      · intro fb
        rw [drainBlocks_small fb fuel ww st h2 h1 hsm]
      · refine ⟨(readWords (2 * ((ww - 1) / 2)) st.pending).2.headD 0 % 256, ?_⟩
        rw [drainBlocks_small false fuel ww st h2 h1 hsm,
          drainBlocks_small true fuel ww st h2 h1 hsm]
        simp
    · have hbig : 256 < ww := by omega
      have hrec := ih (ww - 256)
        ⟨st.rec_state, (readWords 256 st.pending).2,
         st.out ++ (readWords 256 st.pending).1⟩
        h2 (by omega) (by omega)
      constructor
      · intro fb
        rw [drainBlocks_bigStep fb fuel ww st h2 hbig]
        exact hrec.1 fb
      · obtain ⟨b, hb⟩ := hrec.2
        refine ⟨b, ?_⟩
        rw [drainBlocks_bigStep false fuel ww st h2 hbig,
          drainBlocks_bigStep true fuel ww st h2 hbig]
        exact hb

end MegaBox

namespace MegaBox

theorem recordStep_noinput (fb fb' : Bool) (i : PollIn) (st : RecSt)
    (h : st.rec_state = 0) (hin : i.inp = false) :
    recordStep fb i st = recordStep fb' i st ∧
    (recordStep fb i st).rec_state = 0 := by
  simp only [recordStep]
  rw [if_neg (show ¬ (i.inp = true ∧ st.rec_state = 0) from by simp [hin]),
    if_neg (show ¬ (st.rec_state = 1 ∧ i.confirm = true) from by simp [h])]
  refine ⟨(drainBlocks_lt2 fb fb' _ _ _ (by simp [h])).1, ?_⟩
  rw [(drainBlocks_lt2 fb fb' _ _ _ (by simp [h])).2]
  exact h

theorem recordStep_stop (fb fb' : Bool) (i : PollIn) (st : RecSt)
    (h : st.rec_state = 0) (hin : i.inp = true) (hcf : i.confirm = false) :
    recordStep fb i st = recordStep fb' i st ∧
    (recordStep fb i st).rec_state = 1 := by
  simp only [recordStep]
  rw [if_pos ((⟨hin, h⟩ : i.inp = true ∧ st.rec_state = 0)),
    if_neg (show ¬ ((1 : Nat) = 1 ∧ i.confirm = true) from by simp [hcf])]
  exact ⟨(drainBlocks_lt2 fb fb' _ _ _ (by simp)).1,
    (drainBlocks_lt2 fb fb' _ _ _ (by simp)).2⟩

theorem recordStep_confirm (fb : Bool) (i : PollIn) (st : RecSt)
    (h : st.rec_state = 1) (hin : i.inp = false) (hcf : i.confirm = true) :
    recordStep fb i st =
      drainBlocks fb (st.pending ++ i.arrive).length
        (st.pending ++ i.arrive).length
        ⟨2, st.pending ++ i.arrive, st.out⟩ := by
  simp only [recordStep]
  rw [if_neg (show ¬ (i.inp = true ∧ st.rec_state = 0) from by simp [hin]),
    if_pos ((⟨h, hcf⟩ : st.rec_state = 1 ∧ i.confirm = true))]

theorem recordStep_nonzero (fb : Bool) (i : PollIn) (st : RecSt)
    (h : st.rec_state ≠ 0) : (recordStep fb i st).rec_state ≠ 0 := by
  simp only [recordStep]
  rw [if_neg (show ¬ (i.inp = true ∧ st.rec_state = 0) from by simp [h])]
  by_cases hc : st.rec_state = 1 ∧ i.confirm = true
  · rw [if_pos hc]
    rcases drainBlocks_state fb (st.pending ++ i.arrive).length
      (st.pending ++ i.arrive).length
      ⟨2, st.pending ++ i.arrive, st.out⟩ with hs | hs <;> (rw [hs]; simp)
  · rw [if_neg hc]
    rcases drainBlocks_state fb (st.pending ++ i.arrive).length
      (st.pending ++ i.arrive).length
      ⟨st.rec_state, st.pending ++ i.arrive, st.out⟩ with hs | hs <;>
      (rw [hs]; simpa using h)

theorem recordStep_input_nonzero (fb : Bool) (i : PollIn) (st : RecSt)
    (h : st.rec_state = 0) (hin : i.inp = true) :
    (recordStep fb i st).rec_state ≠ 0 := by
  simp only [recordStep]
  rw [if_pos ((⟨hin, h⟩ : i.inp = true ∧ st.rec_state = 0))]
  by_cases hc : i.confirm = true
  · rw [if_pos (show (1 : Nat) = 1 ∧ i.confirm = true from ⟨rfl, hc⟩)]
    rcases drainBlocks_state fb (st.pending ++ i.arrive).length
      (st.pending ++ i.arrive).length
      ⟨2, st.pending ++ i.arrive, st.out⟩ with hs | hs <;> (rw [hs]; simp)
  · rw [if_neg (show ¬ ((1 : Nat) = 1 ∧ i.confirm = true) from by simp [hc])]
    rcases drainBlocks_state fb (st.pending ++ i.arrive).length
      (st.pending ++ i.arrive).length
      ⟨1, st.pending ++ i.arrive, st.out⟩ with hs | hs <;> (rw [hs]; simp)

theorem runRec_nonzero (fb : Bool) (scr : List PollIn) :
    ∀ st : RecSt, st.rec_state ≠ 0 → (runRec fb scr st).rec_state ≠ 0 := by
  induction scr with
  | nil => intro st h; exact h
  | cons i is ih =>
    intro st h
    simp only [runRec]
    split_ifs with hlt
    · exact ih _ (recordStep_nonzero fb i st h)
    · exact h

theorem runRec_zero_iff (fb : Bool) (scr : List PollIn) :
    ∀ st : RecSt, st.rec_state = 0 →
      ((runRec fb scr st).rec_state = 0 ↔ ∀ i ∈ scr, i.inp = false) := by
  induction scr with
  | nil => intro st h; simpa [runRec] using h
  | cons i is ih =>
    intro st h
    simp only [runRec]
    rw [if_pos (by omega)]
    by_cases hin : i.inp = true
    · rw [iff_false_intro (runRec_nonzero fb is _
        (recordStep_input_nonzero fb i st h hin))]
      simp [hin]
    · have hf : i.inp = false := by simpa using hin
      have hstep := recordStep_noinput fb fb i st h hf
      rw [ih _ hstep.2]
      simp [hf]

end MegaBox

namespace MegaBox

theorem runRec_pre (fb fb' : Bool) (arr : List (List Nat)) :
    ∀ st : RecSt, st.rec_state = 0 →
      runRec fb ((arr.map fun a => PollIn.mk false a false) ++
          [PollIn.mk true [] false]) st =
        runRec fb' ((arr.map fun a => PollIn.mk false a false) ++
          [PollIn.mk true [] false]) st ∧
      (runRec fb ((arr.map fun a => PollIn.mk false a false) ++
          [PollIn.mk true [] false]) st).rec_state = 1 := by
  induction arr with
  | nil =>
    intro st h
    simp only [List.map_nil, List.nil_append, runRec]
    rw [if_pos (by omega), if_pos (by omega)]
    exact recordStep_stop fb fb' _ st h rfl rfl
  | cons a as ih =>
    intro st h
    simp only [List.map_cons, List.cons_append, runRec]
    rw [if_pos (by omega), if_pos (by omega)]
    have hstep := recordStep_noinput fb fb' (PollIn.mk false a false) st h rfl
    rw [hstep.1]
    have hstep2 := recordStep_noinput fb' fb' (PollIn.mk false a false) st h rfl
    exact ⟨(ih _ hstep2.2).1, by rw [← hstep.1]; exact (ih _ hstep.2).2⟩

end MegaBox

namespace MegaBox

/-- C5: during a recording session the state leaves `Recording` (0) exactly
at the first drain-loop iteration whose poll observes a command: for every
prefix of the poll script, `rec_state` is still 0 after the prefix if and
only if no poll in the prefix observed input.  Hence an input-free
iteration never moves `rec_state` out of 0, the 0 → 1 transition fires on
the first observed command, and — since the state is never 0 again
afterwards — it fires at most once. -/
theorem rec_stop_first_command (fb : Bool) (scr : List PollIn) (st : RecSt)
    (h0 : st.rec_state = 0) :
    ∀ n, ((runRec fb (List.take n scr) st).rec_state = 0 ↔
      ∀ i ∈ List.take n scr, i.inp = false) :=
  fun n => runRec_zero_iff fb (List.take n scr) st h0

/-- Witness for C5: the spec scenario — three polls with no input, then a
poll observing the confirm command. -/
theorem rec_stop_first_command_witness :
    (RecSt.mk 0 [] []).rec_state = 0 ∧
    ∀ n, ((runRec true (List.take n
        [PollIn.mk false [] false, PollIn.mk false [] false,
         PollIn.mk false [] false, PollIn.mk true [] false])
        ⟨0, [], []⟩).rec_state = 0 ↔
      ∀ i ∈ List.take n
        [PollIn.mk false [] false, PollIn.mk false [] false,
         PollIn.mk false [] false, PollIn.mk true [] false],
        i.inp = false) :=
  ⟨rfl, rec_stop_first_command true
    [PollIn.mk false [] false, PollIn.mk false [] false,
     PollIn.mk false [] false, PollIn.mk true [] false] ⟨0, [], []⟩ rfl⟩

theorem recordStep_stuck (fb : Bool) (i : PollIn) (st : RecSt)
    (h2 : st.rec_state = 2) (hp : st.pending = []) (ha : i.arrive = []) :
    recordStep fb i st = st := by
  obtain ⟨rs, p, o⟩ := st
  simp only at h2 hp
  subst h2 hp
  simp [recordStep, ha, drainBlocks]

theorem runRec_stuck (fb : Bool) (scr : List PollIn) :
    ∀ st : RecSt, st.rec_state = 2 → st.pending = [] →
      (∀ i ∈ scr, i.arrive = []) → runRec fb scr st = st := by
  induction scr with
  | nil => intro st _ _ _; rfl
  | cons i is ih =>
    intro st h2 hp hall
    simp only [runRec]
    rw [if_pos (by omega), recordStep_stuck fb i st h2 hp (hall i (by simp))]
    exact ih st h2 hp fun j hj => hall j (by simp [hj])

/-- C1 amended: for every finite stream — arbitrary word arrivals while
recording, then the stop command, then the codec's stop confirmation
delivering the stream's final words — *provided at least one word remains
pending at the transition to Draining*, the drain loop reaches `Finished`
(`rec_state = 3`, upon which the loop exits and `file.close()` runs), and
the run with the final-status bit set (bit 2 of the second `SCI_AICTRL3`
read) writes exactly one byte fewer than the bit-clear run, the omitted
byte being the low byte of the last word: no spurious extra byte.  The
claim's `0 remaining words` case is refuted separately: there the loop
never reaches `Finished`. -/
theorem record_drain_reaches_finished (arr : List (List Nat))
    (tail : List Nat)
    (hne : (recPreState true arr).pending ++ tail ≠ []) :
    (∀ fb, (recSession fb arr tail).rec_state = 3) ∧
    ∃ b, (recSession false arr tail).out =
      (recSession true arr tail).out ++ [b] := by
  obtain ⟨heq, h1⟩ := runRec_pre true false arr ⟨0, [], []⟩ rfl
  have hP : recPreState true arr = recPreState false arr := heq
  have h1' : (recPreState true arr).rec_state = 1 := h1
  have hlen : 1 ≤ ((recPreState true arr).pending ++ tail).length := by
    rcases List.exists_cons_of_ne_nil hne with ⟨x, xs, hx⟩
    simp [hx]
  have hkey := drainBlocks_final
    ((recPreState true arr).pending ++ tail).length
    ((recPreState true arr).pending ++ tail).length
    ⟨2, (recPreState true arr).pending ++ tail, (recPreState true arr).out⟩
    rfl hlen (le_refl _)
  constructor
  · intro fb
    cases fb
    · show (recordStep false (PollIn.mk false tail true)
        (recPreState false arr)).rec_state = 3
      rw [← hP, recordStep_confirm false _ _ h1' rfl rfl]
      exact hkey.1 false
    · show (recordStep true (PollIn.mk false tail true)
        (recPreState true arr)).rec_state = 3
      rw [recordStep_confirm true _ _ h1' rfl rfl]
      exact hkey.1 true
  · obtain ⟨b, hb⟩ := hkey.2
    refine ⟨b, ?_⟩
    show (recordStep false (PollIn.mk false tail true)
        (recPreState false arr)).out =
      (recordStep true (PollIn.mk false tail true)
        (recPreState true arr)).out ++ [b]
    rw [← hP, recordStep_confirm false _ _ h1' rfl rfl,
      recordStep_confirm true _ _ h1' rfl rfl]
    exact hb

/-- Witness for the amended C1: no arrivals while recording and exactly one
word (0x0005) pending at the Draining transition — the edge case the claim
singles out. -/
theorem record_drain_reaches_finished_witness :
    ((recPreState true []).pending ++ [5] ≠ []) ∧
    ((∀ fb, (recSession fb [] [5]).rec_state = 3) ∧
     ∃ b, (recSession false [] [5]).out =
       (recSession true [] [5]).out ++ [b]) :=
  ⟨by decide, record_drain_reaches_finished [] [5] (by decide)⟩

/-- C1 counterexample: with 0 words remaining at the transition to
Draining, the drain loop never reaches `Finished` — the state stays at
`Draining` (2) under every continuation of the finite stream (polls that
deliver no further words), so the file is never closed.  This refutes the
claim's assertion that the `0 remaining words` case also terminates. -/
theorem record_drain_zero_claim_false :
    (recSession true [] []).rec_state = 2 ∧
    ¬ ∃ scr : List PollIn, (∀ i ∈ scr, i.arrive = []) ∧
        (runRec true scr (recSession true [] [])).rec_state = 3 := by
  have hs : recSession true [] [] = ⟨2, [], []⟩ := by decide
  refine ⟨by rw [hs], ?_⟩
  rintro ⟨scr, hall, h3⟩
  rw [hs, runRec_stuck true scr ⟨2, [], []⟩ rfl rfl hall] at h3
  simp at h3

end MegaBox
